import Mathlib

/-!
Shallow embedding of the QuantX numerical core
(`backend/app/services/probability.py`, `services/greeks.py`,
`services/volatility.py`, `consensus/engine.py`, `strategies/engine.py`,
`backtest/engine.py`) together with proofs of the specified properties.

Real-valued (float) computations are embedded over `ℝ`; list/counting
computations over `ℚ`.  `scipy.stats.norm.cdf` is embedded as the genuine
standard-normal CDF (an integral of the Gaussian density).
-/

open MeasureTheory

namespace QuantX

/-- The `OptionType` enum from `models/enums.py`. -/
inductive OptionType
  | CALL
  | PUT
deriving DecidableEq, Repr

/-- The standard normal density integrand `exp (-t^2/2)` (unnormalised). -/
noncomputable def gaussKernel (t : ℝ) : ℝ := Real.exp (-t ^ 2 / 2)

/-- Embedding of `scipy.stats.norm.cdf`: the standard normal cumulative distribution. -/
noncomputable def normCdf (x : ℝ) : ℝ :=
  (Real.sqrt (2 * Real.pi))⁻¹ * ∫ t in Set.Iic x, gaussKernel t

/-- Embedding of `scipy.stats.norm.pdf`: the standard normal density. -/
noncomputable def normPdf (x : ℝ) : ℝ :=
  (Real.sqrt (2 * Real.pi))⁻¹ * gaussKernel x

lemma gaussKernel_eq (t : ℝ) : gaussKernel t = Real.exp (-(1 / 2) * t ^ 2) := by
  unfold gaussKernel
  ring_nf

lemma integrable_gaussKernel : Integrable gaussKernel := by
  have h := integrable_exp_neg_mul_sq (show (0 : ℝ) < 1 / 2 by norm_num)
  refine h.congr ?_
  filter_upwards with t
  rw [gaussKernel_eq]

lemma integral_gaussKernel : (∫ t, gaussKernel t) = Real.sqrt (2 * Real.pi) := by
  have h := integral_gaussian (1 / 2 : ℝ)
  have h2 : (∫ t, gaussKernel t) = ∫ x : ℝ, Real.exp (-(1 / 2 : ℝ) * x ^ 2) := by
    congr 1
    funext t
    rw [gaussKernel_eq]
  rw [h2, h]
  rw [show Real.pi / (1 / 2) = 2 * Real.pi by ring]

lemma integral_gaussKernel_Iic_neg (x : ℝ) :
    (∫ t in Set.Iic (-x), gaussKernel t) = ∫ t in Set.Ioi x, gaussKernel t := by
  have heven : (∫ t in Set.Iic (-x), gaussKernel t)
      = ∫ t in Set.Iic (-x), gaussKernel (-t) := by
    congr 1
    funext t
    unfold gaussKernel
    ring_nf
  rw [heven, integral_comp_neg_Iic (-x) gaussKernel, neg_neg]

lemma integral_gaussKernel_split (x : ℝ) :
    (∫ t in Set.Iic x, gaussKernel t) + (∫ t in Set.Ioi x, gaussKernel t)
      = Real.sqrt (2 * Real.pi) := by
  rw [intervalIntegral.integral_Iic_add_Ioi integrable_gaussKernel.integrableOn
    integrable_gaussKernel.integrableOn]
  exact integral_gaussKernel

lemma sqrt_two_pi_pos : 0 < Real.sqrt (2 * Real.pi) :=
  Real.sqrt_pos.mpr (by positivity)

/-- Reflection identity of the standard normal CDF: `Φ x + Φ (-x) = 1`. -/
lemma normCdf_add_normCdf_neg (x : ℝ) : normCdf x + normCdf (-x) = 1 := by
  unfold normCdf
  rw [integral_gaussKernel_Iic_neg, ← mul_add, integral_gaussKernel_split]
  exact inv_mul_cancel₀ (ne_of_gt sqrt_two_pi_pos)

/-- Value `Φ 0 = 1/2`. -/
lemma normCdf_zero : normCdf 0 = 1 / 2 := by
  have h := normCdf_add_normCdf_neg 0
  rw [neg_zero] at h
  linarith

/-- Embedding of `_d1_d2` from `services/probability.py` (identical helper in
`services/greeks.py`): zero-guarded d1/d2 log-moneyness pair. -/
noncomputable def d1_d2 (spot strike t iv : ℝ) (r : ℝ := 0) : ℝ × ℝ :=
  if t ≤ 0 ∨ iv ≤ 0 ∨ spot ≤ 0 ∨ strike ≤ 0 then (0, 0)
  else
    let d1 := (Real.log (spot / strike) + (r + 0.5 * iv ^ 2) * t) / (iv * Real.sqrt t)
    (d1, d1 - iv * Real.sqrt t)

/-- Time to expiry in years: `max(days_to_expiry, 1) / 252.0`. -/
noncomputable def yearsToExpiry (days : ℤ) : ℝ := ((max days 1 : ℤ) : ℝ) / 252

lemma yearsToExpiry_pos (days : ℤ) : 0 < yearsToExpiry days := by
  unfold yearsToExpiry
  have h1 : (1 : ℤ) ≤ max days 1 := le_max_right _ _
  have h2 : (1 : ℝ) ≤ ((max days 1 : ℤ) : ℝ) := by exact_mod_cast h1
  positivity

/-- Embedding of `black_scholes_d2_probability` from `services/probability.py`. -/
noncomputable def black_scholes_d2_probability (spot strike : ℝ) (days : ℤ)
    (iv : ℝ) (option_type : OptionType) : ℝ :=
  let t := yearsToExpiry days
  let d2 := (d1_d2 spot strike t iv).2
  match option_type with
  | OptionType.CALL => normCdf d2
  | OptionType.PUT => normCdf (-d2)

/-- Embedding of `lognormal_itm_probability` from `services/probability.py`. -/
noncomputable def lognormal_itm_probability (spot strike : ℝ) (days : ℤ)
    (iv : ℝ) : ℝ :=
  let t := yearsToExpiry days
  if spot ≤ 0 ∨ strike ≤ 0 ∨ iv ≤ 0 ∨ t ≤ 0 then 0
  else
    let mu := Real.log spot - 0.5 * iv ^ 2 * t
    let sigma := iv * Real.sqrt t
    let z := (Real.log strike - mu) / sigma
    1 - normCdf z

/-- Embedding of `binomial_itm_probability` from `services/probability.py`: N-step binomial
lattice, risk-neutral probability fixed at `p = 0.5`. -/
noncomputable def binomial_itm_probability (spot strike : ℝ) (days : ℤ)
    (iv : ℝ) (steps : ℕ := 50) : ℝ :=
  let t := yearsToExpiry days
  if t ≤ 0 ∨ iv ≤ 0 then 0
  else
    let dt := t / steps
    let u := Real.exp (iv * Real.sqrt dt)
    let d := 1 / u
    let p : ℝ := 0.5
    ∑ i ∈ Finset.range (steps + 1),
      if strike ≤ spot * u ^ i * d ^ (steps - i) then
        (steps.choose i : ℝ) * p ^ i * (1 - p) ^ (steps - i)
      else 0

/-- Embedding of `monte_carlo_itm_probability` from `services/probability.py`, with the
vector of standard-normal draws made an explicit argument `z` (the Python
code draws `n_paths` fresh samples from `np.random`); the returned value is
the empirical fraction of in-the-money terminal prices. -/
noncomputable def monte_carlo_itm_probability (spot strike : ℝ) (days : ℤ)
    (iv : ℝ) (z : List ℝ) : ℝ :=
  let t := yearsToExpiry days
  if t ≤ 0 ∨ iv ≤ 0 then 0
  else
    let st := fun zi => spot * Real.exp (-(0.5) * iv ^ 2 * t + iv * Real.sqrt t * zi)
    ((z.countP fun zi => decide (strike ≤ st zi)) : ℝ) / z.length

/-- Embedding of `trinomial_tree_probability` from `services/probability.py`: three-branch
lattice with squared-ratio branch probabilities and a `min(1, ·)` cap. -/
noncomputable def trinomial_tree_probability (spot strike : ℝ) (days : ℤ)
    (iv : ℝ) (steps : ℕ := 50) : ℝ :=
  let t := yearsToExpiry days
  if t ≤ 0 ∨ iv ≤ 0 then 0
  else
    let dt := t / steps
    let u := Real.exp (iv * Real.sqrt (1.5 * dt))
    let d := 1 / u
    let m : ℝ := 1
    let pu := ((Real.exp 0 - d) / (u - d)) ^ 2
    let pd := ((u - Real.exp 0) / (u - d)) ^ 2
    let pm := 1 - pu - pd
    let s := ∑ i ∈ Finset.range (steps + 1), ∑ j ∈ Finset.range (steps - i + 1),
      if strike ≤ spot * u ^ i * m ^ (steps - i - j) * d ^ j ∧ i + j ≤ steps then
        (steps.factorial : ℝ) /
            ((i.factorial : ℝ) * (j.factorial : ℝ) * ((steps - i - j).factorial : ℝ))
          * pu ^ i * pd ^ j * pm ^ (steps - i - j)
      else 0
    min 1 s

/-- The `GreeksResponse` record from `models/schemas.py` (the dict returned by
`compute_greeks`). -/
structure GreeksResult where
  price : ℝ
  delta : ℝ
  gamma : ℝ
  theta : ℝ
  vega : ℝ
  rho : ℝ

/-- Embedding of `black_scholes_price` from `services/greeks.py`. -/
noncomputable def black_scholes_price (spot strike : ℝ) (days : ℤ) (iv : ℝ)
    (option_type : OptionType) (rate : ℝ := 0) : ℝ :=
  let t := yearsToExpiry days
  let dd := d1_d2 spot strike t iv rate
  match option_type with
  | OptionType.CALL =>
      spot * normCdf dd.1 - strike * Real.exp (-rate * t) * normCdf dd.2
  | OptionType.PUT =>
      strike * Real.exp (-rate * t) * normCdf (-dd.2) - spot * normCdf (-dd.1)

/-- Embedding of `compute_greeks` from `services/greeks.py`: zero-guarded Black-Scholes
sensitivities. -/
noncomputable def compute_greeks (spot strike : ℝ) (days : ℤ) (iv : ℝ)
    (option_type : OptionType) (rate : ℝ := 0) : GreeksResult :=
  let t := yearsToExpiry days
  if t ≤ 0 ∨ iv ≤ 0 ∨ spot ≤ 0 ∨ strike ≤ 0 then ⟨0, 0, 0, 0, 0, 0⟩
  else
    let dd := d1_d2 spot strike t iv rate
    let d1 := dd.1
    let d2 := dd.2
    let price := black_scholes_price spot strike days iv option_type rate
    let delta := match option_type with
      | OptionType.CALL => normCdf d1
      | OptionType.PUT => normCdf d1 - 1
    let rho := match option_type with
      | OptionType.CALL => t * strike * Real.exp (-rate * t) * normCdf d2
      | OptionType.PUT => -(t * strike * Real.exp (-rate * t) * normCdf (-d2))
    let gamma := normPdf d1 / (spot * iv * Real.sqrt t)
    let vega := spot * normPdf d1 * Real.sqrt t / 100
    let theta := (-(spot * normPdf d1 * iv / (2 * Real.sqrt t))
      - rate * strike * Real.exp (-rate * t)
          * normCdf (match option_type with
            | OptionType.CALL => d2
            | OptionType.PUT => -d2)) / 252
    ⟨price, delta, gamma, theta, vega, rho⟩

/-- Embedding of `iv_rank` from `services/volatility.py`: share (in percent) of historical
samples `≤` the current IV; `0` on an empty history. -/
def iv_rank (iv : ℚ) (history : List ℚ) : ℚ :=
  if history.isEmpty then 0
  else 100 * (history.countP fun x => decide (x ≤ iv)) / history.length

/-- Embedding of `iv_percentile` from `services/volatility.py`: share (in percent) of
historical samples strictly `<` the current IV; `0` on an empty history. -/
def iv_percentile (iv : ℚ) (history : List ℚ) : ℚ :=
  if history.isEmpty then 0
  else 100 * (history.countP fun x => decide (x < iv)) / history.length

/-- The `TrendDirection` enum from `models/enums.py`. -/
inductive TrendDirection
  | UP
  | DOWN
  | SIDEWAYS
deriving DecidableEq, Repr

/-- The `MarketRegime` enum from `models/enums.py`. -/
inductive MarketRegime
  | BULL
  | BEAR
  | RANGE
  | VOLATILE
deriving DecidableEq, Repr

/-- The `ProbabilityResult` record from `models/schemas.py`. -/
structure ProbabilityResult where
  d2_probability : ℚ
  lognormal_itm_probability : ℚ
  binomial_itm_probability : ℚ
  monte_carlo_itm_probability : ℚ
  expected_move : ℚ

/-- The `IVResponse` record from `models/schemas.py` (`iv` is a required field;
rank, percentile and `hv` are optional). -/
structure IVResponse where
  iv : ℚ
  iv_rank : Option ℚ
  iv_percentile : Option ℚ
  hv : Option ℚ

/-- The `OIResponse` record from `models/schemas.py`. -/
structure OIResponse where
  spike_score : ℚ
  volume_oi_ratio : ℚ
  trend : String
  anomaly_score : ℚ
  pcr_oi : Option ℚ
  pcr_volume : Option ℚ

/-- The `MarketResponse` record from `models/schemas.py`. -/
structure MarketResponse where
  atr_trend : TrendDirection
  vwap_signal : String
  bollinger_squeeze : ℚ
  trend_signal : TrendDirection
  mean_reversion_score : ℚ
  regime : MarketRegime

/-- The `ConsensusResponse` record from `models/schemas.py`; the `details` dict is
embedded as its four named entries. -/
structure ConsensusResponse where
  confidence_score : ℚ
  probability_score : ℚ
  volatility_score : ℚ
  oi_score : ℚ
  market_score : ℚ
deriving DecidableEq

/-- The probability sub-score of `compute_consensus`
(`consensus/engine.py`). -/
def probScore (p : ProbabilityResult) : ℚ :=
  100 * max p.d2_probability p.monte_carlo_itm_probability

/-- The volatility sub-score of `compute_consensus` (`consensus/engine.py`).
The source guard is `iv is not None and hv is not None and hv > 0` (the `iv`
field is never `None`); inside the guard it evaluates `hv / iv`, so `iv = 0`
raises `ZeroDivisionError` — embedded as `none`. -/
def volScore (v : IVResponse) : Option ℚ :=
  let hvComp : Option (List ℚ) :=
    match v.hv with
    | some h =>
        if 0 < h then
          if v.iv = 0 then none
          else some [min 2 (h / v.iv) * 50]
        else some []
    | none => some []
  hvComp.map fun c0 =>
    let c1 := c0 ++ (match v.iv_rank with
      | some r => [100 - |r - 50|]
      | none => [])
    let c2 := c1 ++ (match v.iv_percentile with
      | some q => [100 - |q - 50|]
      | none => [])
    if c2.isEmpty then 50 else c2.sum / c2.length

/-- The open-interest sub-score of `compute_consensus`
(`consensus/engine.py`). -/
def oiScore (o : OIResponse) : ℚ :=
  100 - min 100 (|o.spike_score| * 10 + o.anomaly_score * 10)

/-- The market sub-score of `compute_consensus` (`consensus/engine.py`). -/
def marketScore (m : MarketResponse) : ℚ :=
  let mr_component := 50 + m.mean_reversion_score * 10
  let trend_component : ℚ := match m.trend_signal with
    | TrendDirection.UP => 70
    | TrendDirection.DOWN => 30
    | TrendDirection.SIDEWAYS => 50
  let regime_component : ℚ := match m.regime with
    | MarketRegime.BULL => 70
    | MarketRegime.BEAR => 30
    | MarketRegime.RANGE => 50
    | MarketRegime.VOLATILE => 40
  (mr_component + trend_component + regime_component) / 3

/-- Embedding of `compute_consensus` from `consensus/engine.py`: weighted fusion of the
four sub-scores, clamped to `[0, 100]`; `none` when the volatility sub-score
raises (see `volScore`). -/
def compute_consensus (p : ProbabilityResult) (v : IVResponse)
    (o : OIResponse) (m : MarketResponse) : Option ConsensusResponse :=
  (volScore v).map fun vol_score =>
    let raw_score := probScore p * 0.35 + vol_score * 0.25
      + oiScore o * 0.15 + marketScore m * 0.25
    ⟨max 0 (min 100 raw_score), probScore p, vol_score, oiScore o, marketScore m⟩

/-- The `Condition` record from `models/schemas.py`. -/
structure Condition where
  indicator : String
  operator : String
  threshold : ℚ

/-- The `Filter` record from `models/schemas.py`, with the heterogeneous
`params` dict embedded as a typed payload for the two filter names the
engine interprets (`min_volume` with its numeric `value`, `session` with its
string `value`); any other named filter is ignored by the engine. -/
inductive FilterDef
  | min_volume (value : ℚ)
  | session (value : String)
  | other (name : String)

/-- The `Action` record from `models/schemas.py`. -/
structure Action where
  side : String
  quantity : ℤ
  instrument : String

/-- The `ExitRule` record from `models/schemas.py`. -/
structure ExitRule where
  type : String
  value : ℚ

/-- The `StrategyDefinition` record from `models/schemas.py` (the `mode` enum is
kept as its string value). -/
structure StrategyDefinition where
  name : String
  mode : String
  conditions : List Condition
  filters : List FilterDef
  actions : List Action
  exits : List ExitRule
  multi_leg : Bool

/-- The `Trade` record from `models/schemas.py`; the wall-clock timestamp
`datetime.utcnow()` is embedded as an explicitly passed clock value. -/
structure Trade where
  time : ℕ
  symbol : String
  side : String
  quantity : ℤ
  price : ℚ
  pnl : ℚ

/-- Embedding of `context.get(key, default)` for the strategy engine's indicator
context. -/
def ctxGet (context : List (String × ℚ)) (key : String) (default : ℚ := 0) : ℚ :=
  (context.lookup key).getD default

/-- Embedding of `_evaluate_condition` from `strategies/engine.py`. -/
def evaluate_condition (cond : Condition) (context : List (String × ℚ)) : Bool :=
  let value := ctxGet context cond.indicator
  let thr := cond.threshold
  if cond.operator = ">" then decide (thr < value)
  else if cond.operator = "<" then decide (value < thr)
  else if cond.operator = ">=" then decide (thr ≤ value)
  else if cond.operator = "<=" then decide (value ≤ thr)
  else if cond.operator = "==" then decide (value = thr)
  else if cond.operator = "!=" then decide (value ≠ thr)
  else false

/-- One pass of the loop body of `_apply_filters` (`strategies/engine.py`);
`nowHour` is the explicitly passed `datetime.utcnow().time().hour`. -/
def filter_passes (f : FilterDef) (context : List (String × ℚ)) (nowHour : ℕ) : Bool :=
  match f with
  | FilterDef.min_volume v => !decide (ctxGet context "volume" < v)
  | FilterDef.session s => !(s == "opening" && decide (10 < nowHour))
  | FilterDef.other _ => true

/-- Embedding of `_apply_filters` from `strategies/engine.py`. -/
def apply_filters (filters : List FilterDef) (context : List (String × ℚ))
    (nowHour : ℕ) : Bool :=
  filters.all fun f => filter_passes f context nowHour

/-- Embedding of `_build_trades_from_actions` from `strategies/engine.py`. -/
def build_trades_from_actions (actions : List Action) (price : ℚ) (now : ℕ) :
    List Trade :=
  actions.map fun a => ⟨now, a.instrument, a.side.toUpper, a.quantity, price, 0⟩

/-- The executed/trades part of the dict returned by
`run_live_strategy` (the third entry echoes the input context). -/
structure RunResult where
  executed : Bool
  trades : List Trade

/-- Embedding of `run_live_strategy` from `strategies/engine.py`. -/
def run_live_strategy (strat : StrategyDefinition)
    (context : List (String × ℚ)) (now : ℕ) : RunResult :=
  let all_conditions := strat.conditions.all fun c => evaluate_condition c context
  let filters_ok := apply_filters strat.filters context now
  let should_trade := all_conditions && filters_ok
  let price := ctxGet context "price"
  ⟨should_trade,
    if should_trade then build_trades_from_actions strat.actions price now else []⟩

/-- Embedding of `np.diff(equity_curve) / equity_curve[:-1]` from `compute_stats`
(`backtest/engine.py`): period-over-period returns of the equity curve. -/
def curveReturns (curve : List ℚ) : List ℚ :=
  (curve.zip curve.tail).map fun pr => (pr.2 - pr.1) / pr.1

/-- Helper for `np.maximum.accumulate`. -/
def runningPeakAux (acc : ℚ) : List ℚ → List ℚ
  | [] => []
  | x :: xs => max acc x :: runningPeakAux (max acc x) xs

/-- Embedding of `np.maximum.accumulate(equity_curve)` from `compute_stats`. -/
def runningPeak : List ℚ → List ℚ
  | [] => []
  | x :: xs => x :: runningPeakAux x xs

/-- Embedding of `np.ndarray.min` over a nonempty list (`0` on empty, matching the
guarded use site). -/
def listMin : List ℚ → ℚ
  | [] => 0
  | x :: xs => xs.foldl min x

/-- The `BacktestStats` record from `models/schemas.py`. -/
structure BacktestStats where
  total_trades : ℕ
  win_rate : ℚ
  profit_factor : ℚ
  max_drawdown : ℚ
  sharpe : ℝ

/-- Embedding of `compute_stats` from `backtest/engine.py`. -/
noncomputable def compute_stats (equity_curve : List ℚ) : BacktestStats :=
  if equity_curve.length < 2 then ⟨0, 0, 0, 0, 0⟩
  else
    let returns := curveReturns equity_curve
    let total_trades := returns.length
    let wins := returns.countP fun r => decide (0 < r)
    let losses := returns.countP fun r => decide (r < 0)
    let win_rate : ℚ := if total_trades ≠ 0 then (wins : ℚ) / total_trades else 0
    let gross_profit : ℚ := (returns.filter fun r => decide (0 < r)).sum
    let gross_loss : ℚ :=
      if losses ≠ 0 then -(returns.filter fun r => decide (r < 0)).sum else 0
    let profit_factor : ℚ :=
      if 0 < gross_loss then gross_profit / gross_loss
      else if 0 < gross_profit then 999
      else 0
    let drawdowns := (equity_curve.zip (runningPeak equity_curve)).map
      fun pr => (pr.1 - pr.2) / pr.2
    let max_dd := if drawdowns.length ≠ 0 then listMin drawdowns else 0
    let mean : ℚ := returns.sum / total_trades
    let std : ℝ :=
      Real.sqrt (((returns.map fun r => ((r : ℝ) - (mean : ℝ)) ^ 2).sum) / total_trades)
    let sharpe : ℝ :=
      if returns.length ≠ 0 then (mean : ℝ) / (std + 1e-8) * Real.sqrt 252 else 0
    ⟨total_trades, win_rate, profit_factor, max_dd, sharpe⟩

/-! ### Shared helper lemmas -/

lemma d1_d2_guard {spot strike t iv r : ℝ}
    (h : t ≤ 0 ∨ iv ≤ 0 ∨ spot ≤ 0 ∨ strike ≤ 0) :
    d1_d2 spot strike t iv r = (0, 0) := by
  unfold d1_d2
  rw [if_pos h]

lemma compute_greeks_zero_of_guard (spot strike : ℝ) (days : ℤ) (iv : ℝ)
    (ot : OptionType) (rate : ℝ)
    (h : yearsToExpiry days ≤ 0 ∨ iv ≤ 0 ∨ spot ≤ 0 ∨ strike ≤ 0) :
    compute_greeks spot strike days iv ot rate = ⟨0, 0, 0, 0, 0, 0⟩ := by
  unfold compute_greeks
  rw [if_pos h]

/-! ### Claim theorems -/

/-- C4: for every input tuple `(spot, strike, days_to_expiry, iv)` the
analytic-d2 probability for CALL plus the analytic-d2 probability for PUT at
the same inputs equals exactly 1 (`Φ(d2) + Φ(-d2) = 1`). -/
theorem d2_probability_call_put_sum_one (spot strike : ℝ) (days : ℤ) (iv : ℝ) :
    black_scholes_d2_probability spot strike days iv OptionType.CALL
      + black_scholes_d2_probability spot strike days iv OptionType.PUT = 1 := by
  unfold black_scholes_d2_probability
  exact normCdf_add_normCdf_neg _

/-- C10: at degenerate inputs (`iv ≤ 0`, `spot ≤ 0` or `strike ≤ 0`, which
neutralise d1/d2 to 0), `black_scholes_d2_probability` returns `Φ(0) = 1/2`
for both CALL and PUT, while `lognormal_itm_probability` returns `0` at the
same inputs: the two models disagree on the degenerate-input default. -/
theorem degenerate_default_disagreement (spot strike : ℝ) (days : ℤ) (iv : ℝ)
    (h : iv ≤ 0 ∨ spot ≤ 0 ∨ strike ≤ 0) :
    black_scholes_d2_probability spot strike days iv OptionType.CALL = 1 / 2 ∧
    black_scholes_d2_probability spot strike days iv OptionType.PUT = 1 / 2 ∧
    lognormal_itm_probability spot strike days iv = 0 := by
  have hd : d1_d2 spot strike (yearsToExpiry days) iv = (0, 0) :=
    d1_d2_guard (Or.inr h)
  refine ⟨?_, ?_, ?_⟩
  · show normCdf (d1_d2 spot strike (yearsToExpiry days) iv).2 = 1 / 2
    rw [hd]
    exact normCdf_zero
  · show normCdf (-(d1_d2 spot strike (yearsToExpiry days) iv).2) = 1 / 2
    rw [hd]
    show normCdf (-0) = 1 / 2
    rw [neg_zero]
    exact normCdf_zero
  · unfold lognormal_itm_probability
    rw [if_pos]
    rcases h with h | h | h
    · exact Or.inr (Or.inr (Or.inl h))
    · exact Or.inl h
    · exact Or.inr (Or.inl h)

/-- Witness for C10 at the concrete degenerate input
`spot = 0, strike = 100, days = 30, iv = 1/5`. -/
theorem degenerate_default_disagreement_witness :
    black_scholes_d2_probability 0 100 30 (1 / 5) OptionType.CALL = 1 / 2 ∧
    black_scholes_d2_probability 0 100 30 (1 / 5) OptionType.PUT = 1 / 2 ∧
    lognormal_itm_probability 0 100 30 (1 / 5) = 0 :=
  degenerate_default_disagreement 0 100 30 (1 / 5)
    (Or.inr (Or.inl (le_refl 0)))

/-- C6: for any input hitting the degeneracy guard (`t ≤ 0`, `iv ≤ 0`,
`spot ≤ 0` or `strike ≤ 0`), `compute_greeks` returns the all-zero record
`{price, delta, gamma, theta, vega, rho} = 0` (and, being a total function
of its inputs, never raises). -/
theorem compute_greeks_degenerate_all_zero (spot strike : ℝ) (days : ℤ)
    (iv : ℝ) (ot : OptionType) (rate : ℝ)
    (h : yearsToExpiry days ≤ 0 ∨ iv ≤ 0 ∨ spot ≤ 0 ∨ strike ≤ 0) :
    compute_greeks spot strike days iv ot rate = ⟨0, 0, 0, 0, 0, 0⟩ :=
  compute_greeks_zero_of_guard spot strike days iv ot rate h

/-- Witness for C6 at the all-zero input. -/
theorem compute_greeks_degenerate_all_zero_witness :
    compute_greeks 0 0 0 0 OptionType.CALL 0 = ⟨0, 0, 0, 0, 0, 0⟩ :=
  compute_greeks_degenerate_all_zero 0 0 0 0 OptionType.CALL 0
    (Or.inr (Or.inl (le_refl 0)))

/-- C5 counterexample: at the degenerate input `spot = 0` (guard branch),
both deltas are `0`, so CALL delta minus PUT delta is `0`, not `1`; the
claim "for every identical input tuple" fails as stated. -/
theorem delta_parity_counterexample :
    ¬ ((compute_greeks 0 100 30 (1 / 5) OptionType.CALL 0).delta
        - (compute_greeks 0 100 30 (1 / 5) OptionType.PUT 0).delta = 1) := by
  have hc := compute_greeks_zero_of_guard 0 100 30 (1 / 5) OptionType.CALL 0
    (Or.inr (Or.inr (Or.inl (le_refl 0))))
  have hp := compute_greeks_zero_of_guard 0 100 30 (1 / 5) OptionType.PUT 0
    (Or.inr (Or.inr (Or.inl (le_refl 0))))
  rw [hc, hp]
  norm_num

/-- C5 (amended): for inputs with `spot > 0`, `strike > 0` and `iv > 0`
(outside the degeneracy guard; `t` is always positive), the delta returned
by `compute_greeks` for CALL minus the delta for PUT equals exactly 1. -/
theorem delta_parity_positive_inputs (spot strike : ℝ) (days : ℤ)
    (iv rate : ℝ) (hs : 0 < spot) (hk : 0 < strike) (hiv : 0 < iv) :
    (compute_greeks spot strike days iv OptionType.CALL rate).delta
      - (compute_greeks spot strike days iv OptionType.PUT rate).delta = 1 := by
  have hng : ¬ (yearsToExpiry days ≤ 0 ∨ iv ≤ 0 ∨ spot ≤ 0 ∨ strike ≤ 0) := by
    push_neg
    exact ⟨yearsToExpiry_pos days, hiv, hs, hk⟩
  unfold compute_greeks
  rw [if_neg hng, if_neg hng]
  dsimp only
  ring

/-- Witness for C5's amended theorem at
`spot = 100, strike = 100, days = 30, iv = 1/5, rate = 0`. -/
theorem delta_parity_positive_inputs_witness :
    (compute_greeks 100 100 30 (1 / 5) OptionType.CALL 0).delta
      - (compute_greeks 100 100 30 (1 / 5) OptionType.PUT 0).delta = 1 :=
  delta_parity_positive_inputs 100 100 30 (1 / 5) 0 (by norm_num)
    (by norm_num) (by norm_num)

/-- C7: `iv_rank` returns 100 times the fraction of history samples `≤` the
current IV, `iv_percentile` 100 times the fraction strictly `<` it, so
`iv_percentile ≤ iv_rank`, both lie in `[0, 100]`, and both are exactly `0`
on an empty history. -/
theorem iv_rank_iv_percentile_spec (iv : ℚ) (history : List ℚ) :
    iv_rank iv [] = 0 ∧ iv_percentile iv [] = 0 ∧
    0 ≤ iv_percentile iv history ∧
    iv_percentile iv history ≤ iv_rank iv history ∧
    iv_rank iv history ≤ 100 ∧
    (history ≠ [] →
      iv_rank iv history
          = 100 * (history.countP fun x => decide (x ≤ iv)) / history.length ∧
      iv_percentile iv history
          = 100 * (history.countP fun x => decide (x < iv)) / history.length) := by
  refine ⟨rfl, rfl, ?_, ?_, ?_, ?_⟩
  · by_cases hh : history = []
    · subst hh
      norm_num [iv_percentile]
    · have hne : history.isEmpty = false := by
        simpa [List.isEmpty_iff] using hh
      simp only [iv_percentile, hne, Bool.false_eq_true, if_false]
      positivity
  · by_cases hh : history = []
    · subst hh
      norm_num [iv_percentile, iv_rank]
    · have hne : history.isEmpty = false := by
        simpa [List.isEmpty_iff] using hh
      have hlen : (0 : ℚ) < history.length := by
        exact_mod_cast List.length_pos.mpr hh
      have hcount : (history.countP fun x => decide (x < iv))
          ≤ history.countP fun x => decide (x ≤ iv) := by
        refine List.countP_mono_left ?_
        intro x _ hx
        simp only [decide_eq_true_eq] at hx ⊢
        exact le_of_lt hx
      simp only [iv_percentile, iv_rank, hne, Bool.false_eq_true, if_false]
      gcongr
  · by_cases hh : history = []
    · norm_num [hh, iv_rank]
    · have hne : history.isEmpty = false := by
        simpa [List.isEmpty_iff] using hh
      have hlen : (0 : ℚ) < history.length := by
        exact_mod_cast List.length_pos.mpr hh
      simp only [iv_rank, hne, Bool.false_eq_true, if_false]
      rw [div_le_iff₀ hlen]
      have hc : (history.countP fun x => decide (x ≤ iv)) ≤ history.length :=
        List.countP_le_length _
      gcongr
  · intro hh
    have hne : history.isEmpty = false := by
      simpa [List.isEmpty_iff] using hh
    constructor
    · simp only [iv_rank, hne, Bool.false_eq_true, if_false]
    · simp only [iv_percentile, hne, Bool.false_eq_true, if_false]

/-- Witness for C7 at `iv = 1`, `history = [1]` (rank counts the `≤` match,
percentile does not). -/
theorem iv_rank_iv_percentile_spec_witness :
    iv_rank 1 [(1 : ℚ)]
        = 100 * (([(1 : ℚ)]).countP fun x => decide (x ≤ 1)) / ([(1 : ℚ)]).length ∧
    iv_percentile 1 [(1 : ℚ)]
        = 100 * (([(1 : ℚ)]).countP fun x => decide (x < 1)) / ([(1 : ℚ)]).length :=
  (iv_rank_iv_percentile_spec 1 [(1 : ℚ)]).2.2.2.2.2 (by decide)

lemma sum_choose_half (n : ℕ) :
    ∑ i ∈ Finset.range (n + 1),
      (n.choose i : ℝ) * (0.5 : ℝ) ^ i * (1 - 0.5 : ℝ) ^ (n - i) = 1 := by
  have h1 : ∀ i ∈ Finset.range (n + 1),
      (n.choose i : ℝ) * (0.5 : ℝ) ^ i * (1 - 0.5 : ℝ) ^ (n - i)
        = (n.choose i : ℝ) * (0.5 : ℝ) ^ n := by
    intro i hi
    have hin : i ≤ n := Nat.lt_succ_iff.mp (Finset.mem_range.mp hi)
    rw [show (1 : ℝ) - 0.5 = 0.5 by norm_num, mul_assoc, ← pow_add,
      Nat.add_sub_cancel' hin]
  rw [Finset.sum_congr rfl h1, ← Finset.sum_mul]
  have h2 : (∑ i ∈ Finset.range (n + 1), (n.choose i : ℝ)) = (2 : ℝ) ^ n := by
    rw [← Nat.cast_sum, Nat.sum_range_choose]
    push_cast
    ring
  rw [h2, show (0.5 : ℝ) = 2⁻¹ by norm_num, ← mul_pow]
  norm_num

lemma binomial_mem_unit (spot strike : ℝ) (days : ℤ) (iv : ℝ) (steps : ℕ) :
    0 ≤ binomial_itm_probability spot strike days iv steps ∧
    binomial_itm_probability spot strike days iv steps ≤ 1 := by
  unfold binomial_itm_probability
  dsimp only
  split_ifs with h
  · norm_num
  · constructor
    · apply Finset.sum_nonneg
      intro i _
      split_ifs
      · positivity
      · exact le_refl 0
    · calc
        (∑ i ∈ Finset.range (steps + 1),
            if strike ≤ spot * Real.exp (iv * Real.sqrt (yearsToExpiry days / steps)) ^ i
                * (1 / Real.exp (iv * Real.sqrt (yearsToExpiry days / steps))) ^ (steps - i) then
              (steps.choose i : ℝ) * (0.5 : ℝ) ^ i * (1 - 0.5 : ℝ) ^ (steps - i)
            else 0)
          ≤ ∑ i ∈ Finset.range (steps + 1),
              (steps.choose i : ℝ) * (0.5 : ℝ) ^ i * (1 - 0.5 : ℝ) ^ (steps - i) := by
            apply Finset.sum_le_sum
            intro i _
            split_ifs
            · exact le_refl _
            · positivity
        _ = 1 := sum_choose_half steps

lemma trinomial_pm_nonneg {x : ℝ} (hx : 0 ≤ x) :
    0 ≤ 1 - ((Real.exp 0 - 1 / Real.exp x) / (Real.exp x - 1 / Real.exp x)) ^ 2
        - ((Real.exp x - Real.exp 0) / (Real.exp x - 1 / Real.exp x)) ^ 2 := by
  rcases eq_or_lt_of_le hx with h0 | hpos
  · rw [← h0]
    simp [Real.exp_zero]
  · rw [Real.exp_zero]
    have hu : 1 < Real.exp x := by
      rw [← Real.exp_zero]
      exact Real.exp_lt_exp.mpr hpos
    have hu0 : 0 < Real.exp x := lt_trans one_pos hu
    have hd1 : 1 / Real.exp x < 1 := by
      rw [div_lt_one hu0]
      exact hu
    have hd0 : 0 < 1 / Real.exp x := by positivity
    have hc : 0 < Real.exp x - 1 / Real.exp x := by linarith
    set u := Real.exp x with hu_def
    set s := (1 - 1 / u) / (u - 1 / u) with hs_def
    set t := (u - 1) / (u - 1 / u) with ht_def
    have hs : 0 ≤ s := by
      apply div_nonneg <;> linarith
    have ht : 0 ≤ t := by
      apply div_nonneg <;> linarith
    have hst : s + t = 1 := by
      rw [hs_def, ht_def, div_add_div_same,
        show 1 - 1 / u + (u - 1) = u - 1 / u by ring]
      exact div_self (ne_of_gt hc)
    nlinarith [mul_nonneg hs ht]

lemma trinomial_mem_unit (spot strike : ℝ) (days : ℤ) (iv : ℝ) (steps : ℕ) :
    0 ≤ trinomial_tree_probability spot strike days iv steps ∧
    trinomial_tree_probability spot strike days iv steps ≤ 1 := by
  unfold trinomial_tree_probability
  dsimp only
  split_ifs with h
  · norm_num
  · push_neg at h
    obtain ⟨ht, hiv⟩ := h
    have hx : 0 ≤ iv * Real.sqrt (1.5 * (yearsToExpiry days / steps)) :=
      mul_nonneg (le_of_lt hiv) (Real.sqrt_nonneg _)
    have hpm := trinomial_pm_nonneg hx
    constructor
    · apply le_min (by norm_num)
      apply Finset.sum_nonneg
      intro i _
      apply Finset.sum_nonneg
      intro j _
      split_ifs
      · apply mul_nonneg (mul_nonneg (mul_nonneg ?_ ?_) ?_) ?_
        · positivity
        · exact pow_nonneg (sq_nonneg _) i
        · exact pow_nonneg (sq_nonneg _) j
        · exact pow_nonneg hpm _
      · exact le_refl 0
    · exact min_le_left _ _

lemma monte_carlo_mem_unit (spot strike : ℝ) (days : ℤ) (iv : ℝ)
    (z : List ℝ) :
    0 ≤ monte_carlo_itm_probability spot strike days iv z ∧
    monte_carlo_itm_probability spot strike days iv z ≤ 1 := by
  unfold monte_carlo_itm_probability
  dsimp only
  split_ifs with h
  · norm_num
  · constructor
    · positivity
    · by_cases hz : z.length = 0
      · rw [List.length_eq_zero.mp hz]
        simp
      · have hlen : (0 : ℝ) < z.length := by
          have := Nat.pos_of_ne_zero hz
          exact_mod_cast this
        rw [div_le_one hlen]
        exact_mod_cast List.countP_le_length _

/-- C3: for every valid snapshot (`spot > 0`, `strike > 0`, integer days,
`iv > 0`), the binomial model's sum of `binomial(50, 0.5)` weights over
in-the-money terminal nodes, the trinomial model's capped multinomial sum,
and the Monte Carlo empirical in-the-money fraction (for any draw vector)
all lie in `[0, 1]`. -/
theorem probability_models_unit_interval (spot strike : ℝ) (days : ℤ)
    (iv : ℝ) (hs : 0 < spot) (hk : 0 < strike) (hiv : 0 < iv) :
    (0 ≤ binomial_itm_probability spot strike days iv 50 ∧
      binomial_itm_probability spot strike days iv 50 ≤ 1) ∧
    (0 ≤ trinomial_tree_probability spot strike days iv 50 ∧
      trinomial_tree_probability spot strike days iv 50 ≤ 1) ∧
    ∀ z : List ℝ, 0 ≤ monte_carlo_itm_probability spot strike days iv z ∧
      monte_carlo_itm_probability spot strike days iv z ≤ 1 :=
  ⟨binomial_mem_unit spot strike days iv 50,
    trinomial_mem_unit spot strike days iv 50,
    fun z => monte_carlo_mem_unit spot strike days iv z⟩

/-- Witness for C3 at `spot = 100, strike = 100, days = 30, iv = 1/5` with a
single Monte Carlo draw `z = [0]`. -/
theorem probability_models_unit_interval_witness :
    (0 ≤ binomial_itm_probability 100 100 30 (1 / 5) 50 ∧
      binomial_itm_probability 100 100 30 (1 / 5) 50 ≤ 1) ∧
    (0 ≤ trinomial_tree_probability 100 100 30 (1 / 5) 50 ∧
      trinomial_tree_probability 100 100 30 (1 / 5) 50 ≤ 1) ∧
    (0 ≤ monte_carlo_itm_probability 100 100 30 (1 / 5) [0] ∧
      monte_carlo_itm_probability 100 100 30 (1 / 5) [0] ≤ 1) :=
  ⟨(probability_models_unit_interval 100 100 30 (1 / 5) (by norm_num)
      (by norm_num) (by norm_num)).1,
    (probability_models_unit_interval 100 100 30 (1 / 5) (by norm_num)
      (by norm_num) (by norm_num)).2.1,
    (probability_models_unit_interval 100 100 30 (1 / 5) (by norm_num)
      (by norm_num) (by norm_num)).2.2 [0]⟩

/-- C1: whenever `compute_consensus` returns a response, its
`confidence_score` is the clamp to `[0, 100]` of
`0.35·probability_score + 0.25·volatility_score + 0.15·oi_score +
0.25·market_score` over the four computed sub-scores, and therefore always
lies in `[0, 100]`, whatever the (even out-of-range) sub-score values. -/
theorem consensus_confidence_clamped (p : ProbabilityResult) (v : IVResponse)
    (o : OIResponse) (m : MarketResponse) (resp : ConsensusResponse)
    (h : compute_consensus p v o m = some resp) :
    resp.confidence_score
        = max 0 (min 100 (0.35 * resp.probability_score
            + 0.25 * resp.volatility_score + 0.15 * resp.oi_score
            + 0.25 * resp.market_score)) ∧
    0 ≤ resp.confidence_score ∧ resp.confidence_score ≤ 100 := by
  unfold compute_consensus at h
  cases hv : volScore v with
  | none =>
      rw [hv] at h
      simp at h
  | some vol_score =>
      rw [hv] at h
      simp only [Option.map_some'] at h
      have hresp := Option.some.inj h
      subst hresp
      dsimp only
      refine ⟨?_, le_max_left 0 _, max_le (by norm_num) (min_le_left _ _)⟩
      rw [show probScore p * 0.35 + vol_score * 0.25 + oiScore o * 0.15
          + marketScore m * 0.25
        = 0.35 * probScore p + 0.25 * vol_score + 0.15 * oiScore o
          + 0.25 * marketScore m from by ring]

/-- Witness for C1 at a concrete input (empty optional IV metrics, so the
volatility sub-score defaults to 50; the consensus evaluates to 40). -/
theorem consensus_confidence_clamped_witness :
    (⟨40, 0, 50, 100, 50⟩ : ConsensusResponse).confidence_score
        = max 0 (min 100 (0.35 * (⟨40, 0, 50, 100, 50⟩ : ConsensusResponse).probability_score
            + 0.25 * (⟨40, 0, 50, 100, 50⟩ : ConsensusResponse).volatility_score
            + 0.15 * (⟨40, 0, 50, 100, 50⟩ : ConsensusResponse).oi_score
            + 0.25 * (⟨40, 0, 50, 100, 50⟩ : ConsensusResponse).market_score)) ∧
    0 ≤ (⟨40, 0, 50, 100, 50⟩ : ConsensusResponse).confidence_score ∧
    (⟨40, 0, 50, 100, 50⟩ : ConsensusResponse).confidence_score ≤ 100 :=
  consensus_confidence_clamped ⟨0, 0, 0, 0, 0⟩ ⟨1, none, none, none⟩
    ⟨0, 0, "flat", 0, none, none⟩
    ⟨TrendDirection.SIDEWAYS, "na", 0, TrendDirection.SIDEWAYS, 0,
      MarketRegime.RANGE⟩
    ⟨40, 0, 50, 100, 50⟩ (by
      simp only [compute_consensus, volScore, probScore, oiScore, marketScore]
      norm_num [min_def, max_def])

/-- C2 (code bug): the source guard on the `HV/IV` volatility component
tests `hv > 0`, not `iv > 0`, so at `iv = 0` with `hv = 1` present the guard
passes and the component's division `hv / iv` divides by a zero IV
(a `ZeroDivisionError` in the source, embedded as `none`): the sub-score
computation does not avoid dividing by a zero IV. -/
theorem consensus_volatility_division_by_zero :
    (⟨0, none, none, some 1⟩ : IVResponse).hv = some 1 ∧ (0 : ℚ) < 1 ∧
    (⟨0, none, none, some 1⟩ : IVResponse).iv = 0 ∧
    volScore ⟨0, none, none, some 1⟩ = none ∧
    compute_consensus ⟨0, 0, 0, 0, 0⟩ ⟨0, none, none, some 1⟩
        ⟨0, 0, "flat", 0, none, none⟩
        ⟨TrendDirection.SIDEWAYS, "na", 0, TrendDirection.SIDEWAYS, 0,
          MarketRegime.RANGE⟩ = none :=
  ⟨rfl, by norm_num, rfl, by rfl, by rfl⟩

/-- C8: `run_live_strategy` executes (and yields one trade per action) iff
every condition holds (logical AND) and every filter passes; otherwise it
yields `executed = false` and no trades; an indicator missing from the
context evaluates as 0; and the single-condition strategy
`{pcr_oi < 0.7}` against a context with `pcr_oi = 1.25` skips with zero
trades. -/
theorem run_live_strategy_spec (strat : StrategyDefinition)
    (context : List (String × ℚ)) (now : ℕ) :
    ((run_live_strategy strat context now).executed = true
        ↔ ((∀ c ∈ strat.conditions, evaluate_condition c context = true)
            ∧ apply_filters strat.filters context now = true))
    ∧ ((run_live_strategy strat context now).executed = true
        → (run_live_strategy strat context now).trades
              = build_trades_from_actions strat.actions (ctxGet context "price") now
          ∧ (run_live_strategy strat context now).trades.length
              = strat.actions.length)
    ∧ ((run_live_strategy strat context now).executed = false
        → (run_live_strategy strat context now).trades = [])
    ∧ (∀ key, context.lookup key = none → ctxGet context key = 0)
    ∧ (∀ (sname smode : String) (acts : List Action) (exits : List ExitRule)
          (ml : Bool),
        run_live_strategy
            ⟨sname, smode, [⟨"pcr_oi", "<", 0.7⟩], [], acts, exits, ml⟩
            [("pcr_oi", 1.25)] now
          = ⟨false, []⟩) := by
  have hrun : run_live_strategy strat context now
      = ⟨strat.conditions.all (fun c => evaluate_condition c context)
            && apply_filters strat.filters context now,
          if strat.conditions.all (fun c => evaluate_condition c context)
              && apply_filters strat.filters context now
            then build_trades_from_actions strat.actions
              (ctxGet context "price") now
            else []⟩ := rfl
  refine ⟨?_, ?_, ?_, ?_, ?_⟩
  · rw [hrun]
    simp [Bool.and_eq_true, List.all_eq_true]
  · rw [hrun]
    intro h
    dsimp only at h
    constructor
    · simp [h]
    · simp [h, build_trades_from_actions]
  · rw [hrun]
    intro h
    dsimp only at h
    simp [h]
  · intro key hk
    unfold ctxGet
    rw [hk]
    rfl
  · intro sname smode acts exits ml
    show RunResult.mk _ _ = _
    norm_num [run_live_strategy, evaluate_condition, apply_filters, ctxGet]
    exact ⟨by decide, fun h => absurd h (by decide)⟩

/-- Witness for C8: the skip case of the `pcr_oi` example strategy and the
missing-indicator default, at concrete inputs. -/
theorem run_live_strategy_spec_witness :
    (run_live_strategy
        ⟨"s", "LIVE", [⟨"pcr_oi", "<", 0.7⟩], [],
          [⟨"BUY", 1, "NIFTY"⟩], [], false⟩
        [("pcr_oi", 1.25)] 9).trades = [] ∧
    ctxGet [("pcr_oi", 1.25)] "volume" = 0 :=
  ⟨(run_live_strategy_spec
      ⟨"s", "LIVE", [⟨"pcr_oi", "<", 0.7⟩], [], [⟨"BUY", 1, "NIFTY"⟩], [],
        false⟩
      [("pcr_oi", 1.25)] 9).2.2.1
      (by
        rw [(run_live_strategy_spec
          ⟨"s", "LIVE", [⟨"pcr_oi", "<", 0.7⟩], [], [⟨"BUY", 1, "NIFTY"⟩],
            [], false⟩
          [("pcr_oi", 1.25)] 9).2.2.2.2 "s" "LIVE" [⟨"BUY", 1, "NIFTY"⟩] []
          false]),
    (run_live_strategy_spec
      ⟨"s", "LIVE", [⟨"pcr_oi", "<", 0.7⟩], [], [⟨"BUY", 1, "NIFTY"⟩], [],
        false⟩
      [("pcr_oi", 1.25)] 9).2.2.2.1 "volume" (by rfl)⟩

lemma curveReturns_nil_of_short {curve : List ℚ} (h : curve.length < 2) :
    curveReturns curve = [] := by
  match curve with
  | [] => rfl
  | [x] => rfl
  | x :: y :: rest =>
      simp only [List.length_cons] at h
      omega

lemma compute_stats_pf_small {curve : List ℚ} (h : curve.length < 2) :
    (compute_stats curve).profit_factor = 0 := by
  unfold compute_stats
  rw [if_pos h]

lemma compute_stats_pf_eq (curve : List ℚ) (h : ¬ curve.length < 2) :
    (compute_stats curve).profit_factor
      = (if 0 < (if ((curveReturns curve).countP fun r => decide (r < 0)) ≠ 0
            then -((curveReturns curve).filter fun r => decide (r < 0)).sum
            else 0)
          then ((curveReturns curve).filter fun r => decide (0 < r)).sum
            / (if ((curveReturns curve).countP fun r => decide (r < 0)) ≠ 0
                then -((curveReturns curve).filter fun r => decide (r < 0)).sum
                else 0)
          else if 0 < ((curveReturns curve).filter fun r => decide (0 < r)).sum
            then 999
            else 0) := by
  unfold compute_stats
  rw [if_neg h]

lemma sum_neg_of_all_neg :
    ∀ (l : List ℚ), (∀ x ∈ l, x < 0) → l ≠ [] → l.sum < 0
  | [], _, hne => absurd rfl hne
  | x :: xs, h, _ => by
      rw [List.sum_cons]
      have hx := h x (List.mem_cons_self x xs)
      rcases eq_or_ne xs [] with h0 | h0
      · subst h0
        simpa using hx
      · have hxs := sum_neg_of_all_neg xs
          (fun y hy => h y (List.mem_cons_of_mem _ hy)) h0
        linarith

lemma filter_pos_sum_nonneg (l : List ℚ) :
    0 ≤ (l.filter fun r => decide (0 < r)).sum := by
  apply List.sum_nonneg
  intro x hx
  have := (List.mem_filter.mp hx).2
  simp only [decide_eq_true_eq] at this
  exact le_of_lt this

/-- C9: the profit factor of `compute_stats` is `999` exactly when the
equity-curve returns contain no negative value and at least one positive
value; with at least one negative return it is gross positive return over
gross negative return; and it is always nonnegative. -/
theorem profit_factor_spec (curve : List ℚ) :
    0 ≤ (compute_stats curve).profit_factor
    ∧ (((∀ r ∈ curveReturns curve, ¬ r < 0)
          ∧ ∃ r ∈ curveReturns curve, 0 < r)
        → (compute_stats curve).profit_factor = 999)
    ∧ ((∃ r ∈ curveReturns curve, r < 0)
        → (compute_stats curve).profit_factor
            = ((curveReturns curve).filter fun r => decide (0 < r)).sum
              / -(((curveReturns curve).filter fun r => decide (r < 0)).sum)) := by
  by_cases hlen : curve.length < 2
  · have hret : curveReturns curve = [] := curveReturns_nil_of_short hlen
    refine ⟨by rw [compute_stats_pf_small hlen], ?_, ?_⟩
    · rintro ⟨-, r, hr, -⟩
      rw [hret] at hr
      cases hr
    · rintro ⟨r, hr, -⟩
      rw [hret] at hr
      cases hr
  · have hpf := compute_stats_pf_eq curve hlen
    refine ⟨?_, ?_, ?_⟩
    · rw [hpf]
      split_ifs <;>
        first
          | exact div_nonneg (filter_pos_sum_nonneg _) (le_of_lt (by assumption))
          | linarith
    · rintro ⟨hno, r, hrmem, hrpos⟩
      have hl0 : ((curveReturns curve).countP fun r => decide (r < 0)) = 0 := by
        rw [List.countP_eq_zero]
        intro a ha
        simp only [decide_eq_true_eq]
        exact hno a ha
      have hgp : 0 < ((curveReturns curve).filter fun r => decide (0 < r)).sum := by
        apply List.sum_pos
        · intro x hx
          have := (List.mem_filter.mp hx).2
          simpa using this
        · exact List.ne_nil_of_mem
            (List.mem_filter.mpr ⟨hrmem, by simpa using hrpos⟩)
      have hcond : (if ((curveReturns curve).countP fun r => decide (r < 0)) ≠ 0
          then -((curveReturns curve).filter fun r => decide (r < 0)).sum
          else 0) = (0 : ℚ) := by simp [hl0]
      rw [hpf, hcond, if_neg (show ¬ (0 : ℚ) < 0 from lt_irrefl 0),
        if_pos hgp]
    · rintro ⟨r, hrmem, hrneg⟩
      have hlne : ((curveReturns curve).countP fun r => decide (r < 0)) ≠ 0 := by
        apply Nat.pos_iff_ne_zero.mp
        rw [List.countP_pos_iff]
        exact ⟨r, hrmem, by simpa using hrneg⟩
      have hns : ((curveReturns curve).filter fun r => decide (r < 0)).sum < 0 := by
        apply sum_neg_of_all_neg
        · intro x hx
          have := (List.mem_filter.mp hx).2
          simpa using this
        · exact List.ne_nil_of_mem
            (List.mem_filter.mpr ⟨hrmem, by simpa using hrneg⟩)
      have hcond : (if ((curveReturns curve).countP fun r => decide (r < 0)) ≠ 0
          then -((curveReturns curve).filter fun r => decide (r < 0)).sum
          else 0)
          = -((curveReturns curve).filter fun r => decide (r < 0)).sum :=
        if_pos hlne
      rw [hpf, hcond, if_pos (show (0 : ℚ)
        < -((curveReturns curve).filter fun r => decide (r < 0)).sum by
          linarith)]

/-- Witness for C9 at the concrete curve `[100, 110]` (single return
`1/10`: no negative return, one positive, so the sentinel 999). -/
theorem profit_factor_spec_witness :
    0 ≤ (compute_stats [100, 110]).profit_factor ∧
    (compute_stats [100, 110]).profit_factor = 999 :=
  ⟨(profit_factor_spec [100, 110]).1,
    (profit_factor_spec [100, 110]).2.1 (by norm_num [curveReturns])⟩

end QuantX
